import Mathlib

/-!
Verification of the expression-extraction-and-evaluation pipeline of the
Snap-and-Solve calculator repository.

The repository contains two source files, each exporting an
`extractExpressionFromImage` and a `calculateExpression` function:

* `src/services/geminiService.ts` (embedded below in namespace `ServiceTS`):
  both functions wrap a remote model call; the response post-processing is
  embedded as a function of the model response, modelled as `Option String`
  (`some text` when the call resolved with `text`, `none` when it threw).

* `src/unnamed/part_000` (embedded below in namespace `ServiceJS`): the
  extractor again wraps a model call, while `calculateExpression` is local:
  it guards the character set and operator adjacency with regexes and then
  evaluates the string with a dynamic JavaScript expression evaluator
  (`new Function(return ...)`).  That evaluator is embedded as a tokenizer
  plus precedence-climbing parser over exact rationals.

Modelling notes for the dynamic evaluator (the only non-glue code):
* JavaScript numbers are IEEE doubles.  They are modelled as exact rationals
  together with the infinities and NaN (`JSNum`); every operation overflows
  to an infinity at the IEEE double overflow threshold (values of magnitude
  at least 2^1024 - 2^970 round to an infinity under round-to-nearest-even),
  but mantissa rounding of in-range values is not modelled.  All inputs
  exercised by the claims have exact small-integer values, where the two
  semantics agree.
* Automatic semicolon insertion inside the generated function body is not
  modelled: whitespace (including line terminators) is treated purely as a
  token separator.  The two semantics differ only on inputs whose token
  lists form more than one statement, which no claim exercises.
* Strings containing two adjacent operator characters never reach the
  evaluator (the operator-sequence guard rejects them first), so operators
  are tokenized as single characters; the JavaScript lexemes `++`, `--` and
  `**` are unreachable.
-/

/-! ## Character classes (JavaScript regex classes used by the sources) -/

/-- The character class `\s` of JavaScript regexes, which coincides with the
whitespace skipped by `String.prototype.trim` and by the JavaScript lexer:
ASCII whitespace, NBSP, the Unicode space separators, the line separators
and the BOM. -/
def jsWhitespace (c : Char) : Bool :=
  c = ' ' || c = '\t' || c = '\n' || c = '\x0b' || c = '\x0c' || c = '\r' ||
  c = '\u00a0' || c = '\u1680' ||
  ('\u2000' ≤ c && c ≤ '\u200a') ||
  c = '\u2028' || c = '\u2029' || c = '\u202f' || c = '\u205f' ||
  c = '\u3000' || c = '\ufeff'

/-- A decimal digit, the class `[0-9]`. -/
def isDigitChar (c : Char) : Bool :=
  '0' ≤ c && c ≤ '9'

/-- One of the four operator characters, the class `[+\-*/]`. -/
def isOpChar (c : Char) : Bool :=
  c = '+' || c = '-' || c = '*' || c = '/'

/-- The allowed-character class `[0-9.+\-*/()\s]` shared by the sanitizer of
the TypeScript extractor and by the character guard of the local evaluator. -/
def allowedChar (c : Char) : Bool :=
  isDigitChar c || c = '.' || isOpChar c || c = '(' || c = ')' || jsWhitespace c

/-- The allowed-character class `[0-9.+\-*/()]` (no whitespace) used by the
sanitizer of the part_000 extractor. -/
def allowedCharNoWs (c : Char) : Bool :=
  isDigitChar c || c = '.' || isOpChar c || c = '(' || c = ')'

/-! ## String utilities -/

/-- `listBegins pat s` holds when `pat` is an initial segment of `s`
(JavaScript `String.prototype.startsWith`). -/
def listBegins : List Char → List Char → Bool
  | [], _ => true
  | _ :: _, [] => false
  | p :: ps, c :: cs => p = c && listBegins ps cs

/-- The `ERROR:` prefix used as the uniform failure channel. -/
def errPrefix : List Char := "ERROR:".data

/-- `beginsError s` holds when the string starts with the literal `ERROR:`. -/
def beginsError (s : String) : Bool :=
  listBegins errPrefix s.data

/-- JavaScript `String.prototype.trim`: drop leading and trailing
whitespace. -/
def jsTrim (s : List Char) : List Char :=
  ((s.dropWhile jsWhitespace).reverse.dropWhile jsWhitespace).reverse

/-- The substitution `replace(/[^0-9.+\-*/\s()]/g, "")`: strip every
character outside the allowed class.  Used by the TypeScript extractor as
its output sanitizer and by the local evaluator to detect disallowed
characters. -/
def stripDisallowed (s : List Char) : List Char :=
  s.filter allowedChar

/-- The substitution `replace(/[^0-9.+\-*/()]/g, "")` of the part_000
extractor (its cleanup has already removed all whitespace). -/
def stripDisallowedNoWs (s : List Char) : List Char :=
  s.filter allowedCharNoWs

/-- The test `/[0-9]/.test(text)`. -/
def hasDigit (s : List Char) : Bool :=
  s.any isDigitChar

/-- The test `/[+\-*/]/.test(text)`. -/
def hasOp (s : List Char) : Bool :=
  s.any isOpChar

/-- The test `/[*\/+\-]{2,}/.test(s)`: some two operator characters are
immediately adjacent. -/
def adjOps : List Char → Bool
  | a :: b :: t => (isOpChar a && isOpChar b) || adjOps (b :: t)
  | _ => false

/-- The substitution `replace(/\s+/g, "")` of the part_000 extractor:
remove every whitespace character. -/
def removeWs (s : List Char) : List Char :=
  s.filter (fun c => !jsWhitespace c)

/-- Case-insensitive match of a fixed ASCII word at the head of the string;
returns the remainder on success. -/
def matchWordCI : List Char → List Char → Option (List Char)
  | [], s => some s
  | _ :: _, [] => none
  | w :: ws, c :: cs => if w.toLower = c.toLower then matchWordCI ws cs else none

/-- One attempt of the label regex `(expression|result|answer)[:\-]?\s*` at
the current position: the alternation in source order, an optional colon or
hyphen, then greedily consumed whitespace. -/
def tryLabel (s : List Char) : Option (List Char) :=
  match matchWordCI "expression".data s with
  | some rest => some rest
  | none =>
    match matchWordCI "result".data s with
    | some rest => some rest
    | none => matchWordCI "answer".data s

/-- Remainder after the optional `[:\-]?` and the greedy `\s*` of the label
regex. -/
def afterLabelTail (s : List Char) : List Char :=
  match s with
  | c :: t => if c = ':' || c = '-' then t.dropWhile jsWhitespace
              else s.dropWhile jsWhitespace
  | [] => []

/-- Fuelled scanner implementing the global replacement
`replace(/(expression|result|answer)[:\-]?\s*/gi, "")`: at each position try
the pattern; on a match drop it and continue after it, otherwise keep the
character. -/
def stripLabelsF : Nat → List Char → List Char
  | 0, s => s
  | _ + 1, [] => []
  | f + 1, c :: t =>
    match tryLabel (c :: t) with
    | some rest => stripLabelsF f (afterLabelTail rest)
    | none => c :: stripLabelsF f t

/-- The label-stripping pass of the part_000 extractor. -/
def stripLabels (s : List Char) : List Char :=
  stripLabelsF s.length s

/-! ## The JavaScript number model

IEEE doubles are modelled as exact rationals plus the two infinities and
NaN.  `ovfN` is the overflow threshold of round-to-nearest-even: a real of
magnitude at least `2^1024 - 2^970` rounds to an infinity, anything smaller
rounds to a finite double. -/

/-- Overflow threshold of IEEE double rounding. -/
def ovfN : Nat := 2 ^ 1024 - 2 ^ 970

/-- An exact rational kept as an unreduced fraction (positive denominator
maintained by all the operations below).  A bespoke representation is used
instead of `Rat` so that every arithmetic step reduces inside the kernel
(`Rat` normalizes through `Nat.gcd`, which is defined by well-founded
recursion and blocks kernel evaluation). -/
structure JSRat where
  num : Int
  den : Nat
deriving DecidableEq

/-- The rational `n`. -/
def jsrOfNat (n : Nat) : JSRat :=
  ⟨n, 1⟩

/-- Negation. -/
def jsrNeg (a : JSRat) : JSRat :=
  ⟨-a.num, a.den⟩

/-- Exact addition of fractions. -/
def jsrAdd (a b : JSRat) : JSRat :=
  ⟨a.num * b.den + b.num * a.den, a.den * b.den⟩

/-- Exact multiplication of fractions. -/
def jsrMul (a b : JSRat) : JSRat :=
  ⟨a.num * b.num, a.den * b.den⟩

/-- Exact division of fractions; only invoked with `b.num ≠ 0`, keeping the
denominator positive. -/
def jsrDiv (a b : JSRat) : JSRat :=
  ⟨if b.num < 0 then -(a.num * b.den) else a.num * b.den, a.den * b.num.natAbs⟩

/-- The represented value is zero. -/
def jsrIsZero (a : JSRat) : Bool :=
  a.num = 0

/-- The represented value is negative. -/
def jsrIsNeg (a : JSRat) : Bool :=
  a.num < 0

/-- `|q| < ovfN`, i.e. the exact value rounds to a finite double. -/
def finiteRat (q : JSRat) : Bool :=
  q.num.natAbs < ovfN * q.den

/-- A JavaScript number: a finite value (kept exact), an infinity
(`neg = true` for the negative one), or NaN. -/
inductive JSNum where
  | num (q : JSRat)
  | inf (neg : Bool)
  | nan
deriving DecidableEq

/-- Round an exact value: overflow to the correctly signed infinity beyond
the IEEE threshold (mantissa rounding below the threshold is not
modelled). -/
def clampNum (q : JSRat) : JSNum :=
  if finiteRat q then .num q else .inf (jsrIsNeg q)

/-- Unary minus. -/
def jsNeg : JSNum → JSNum
  | .num q => .num (jsrNeg q)
  | .inf b => .inf (!b)
  | .nan => .nan

/-- Addition. -/
def jsAdd : JSNum → JSNum → JSNum
  | .nan, _ => .nan
  | _, .nan => .nan
  | .inf a, .inf b => if a = b then .inf a else .nan
  | .inf a, .num _ => .inf a
  | .num _, .inf b => .inf b
  | .num a, .num b => clampNum (jsrAdd a b)

/-- Subtraction; on doubles `x - y` is exactly `x + (-y)`. -/
def jsSub (a b : JSNum) : JSNum :=
  jsAdd a (jsNeg b)

/-- Multiplication. -/
def jsMul : JSNum → JSNum → JSNum
  | .nan, _ => .nan
  | _, .nan => .nan
  | .inf a, .inf b => .inf (a != b)
  | .inf a, .num q => if jsrIsZero q then .nan else .inf (a != jsrIsNeg q)
  | .num q, .inf b => if jsrIsZero q then .nan else .inf (b != jsrIsNeg q)
  | .num a, .num b => clampNum (jsrMul a b)

/-- Division.  Division by (positive) zero yields an infinity carrying the
sign of the dividend, `0/0` yields NaN, a finite value over an infinity
yields zero.  Negative zero is not represented: it can only be told apart
from zero by the sign of a division-by-zero infinity, and the sign of an
infinity never affects which branch of the source code runs. -/
def jsDiv : JSNum → JSNum → JSNum
  | .nan, _ => .nan
  | _, .nan => .nan
  | .inf _, .inf _ => .nan
  | .inf a, .num q => .inf (a != jsrIsNeg q)
  | .num _, .inf _ => .num (jsrOfNat 0)
  | .num a, .num b =>
    if jsrIsZero b then (if jsrIsZero a then .nan else .inf (jsrIsNeg a))
    else clampNum (jsrDiv a b)

/-! ## Tokenizer for the dynamic evaluator -/

/-- Tokens of the JavaScript expression grammar restricted to the allowed
character set. -/
inductive Tok where
  | num (q : JSRat)
  | add
  | sub
  | mul
  | div
  | lp
  | rp
deriving DecidableEq

/-- Numeral characters: the characters collected into one numeral lexeme. -/
def isNumChar (c : Char) : Bool :=
  isDigitChar c || c = '.'

/-- Value of a list of decimal digit characters. -/
def digitsVal (s : List Char) : Nat :=
  s.foldl (fun n c => n * 10 + (c.toNat - 48)) 0

/-- Lex one numeral run (digits and dots).  A valid JavaScript numeric
literal here has at most one dot and at least one digit; the sloppy-mode
function body also accepts leading zeros.  Anything else (for example two
dots) fails to lex. -/
def lexNum (s : List Char) : Option JSRat :=
  let intPart := s.takeWhile isDigitChar
  let rest := s.dropWhile isDigitChar
  match rest with
  | [] => if intPart = [] then none else some (jsrOfNat (digitsVal intPart))
  | '.' :: frac =>
    if frac.all isDigitChar ∧ (intPart ≠ [] ∨ frac ≠ []) then
      some ⟨digitsVal intPart * 10 ^ frac.length + digitsVal frac, 10 ^ frac.length⟩
    else none
  | _ => none

/-- Fuelled tokenizer: skip whitespace, lex maximal numeral runs, map the
remaining single characters to operator and parenthesis tokens.  A
character outside the allowed set fails the lex (the guards of the local
evaluator make that case unreachable anyway). -/
def tokenizeF : Nat → List Char → Option (List Tok)
  | _, [] => some []
  | 0, _ :: _ => none
  | f + 1, c :: t =>
    if jsWhitespace c then tokenizeF f t
    else if isNumChar c then
      let run := (c :: t).takeWhile isNumChar
      let rest := (c :: t).dropWhile isNumChar
      match lexNum run with
      | some q => (tokenizeF f rest).map (Tok.num q :: ·)
      | none => none
    else if c = '+' then (tokenizeF f t).map (Tok.add :: ·)
    else if c = '-' then (tokenizeF f t).map (Tok.sub :: ·)
    else if c = '*' then (tokenizeF f t).map (Tok.mul :: ·)
    else if c = '/' then (tokenizeF f t).map (Tok.div :: ·)
    else if c = '(' then (tokenizeF f t).map (Tok.lp :: ·)
    else if c = ')' then (tokenizeF f t).map (Tok.rp :: ·)
    else none

/-- Tokenize a string (the fuel `length + 1` dominates the number of
characters consumed). -/
def tokenize (s : List Char) : Option (List Tok) :=
  tokenizeF (s.length + 1) s

/-! ## Recursive-descent parser-evaluator

The grammar of JavaScript additive and multiplicative expressions over the
restricted token set, with left-to-right associativity and the conventional
precedence, evaluated on the fly:

  Expr  := Term ((+ | -) Term)*
  Term  := Unary ((* | /) Unary)*
  Unary := (+ | -)* Atom
  Atom  := numeral | ( Expr )

All functions are fuelled; each recursive call decreases the fuel. -/

mutual

def parseExpr : Nat → List Tok → Option (JSNum × List Tok)
  | 0, _ => none
  | f + 1, ts =>
    match parseTerm f ts with
    | some (v, rest) => parseExprLoop f v rest
    | none => none

def parseExprLoop : Nat → JSNum → List Tok → Option (JSNum × List Tok)
  | 0, _, _ => none
  | f + 1, acc, .add :: ts =>
    match parseTerm f ts with
    | some (v, rest) => parseExprLoop f (jsAdd acc v) rest
    | none => none
  | f + 1, acc, .sub :: ts =>
    match parseTerm f ts with
    | some (v, rest) => parseExprLoop f (jsSub acc v) rest
    | none => none
  | _ + 1, acc, ts => some (acc, ts)

def parseTerm : Nat → List Tok → Option (JSNum × List Tok)
  | 0, _ => none
  | f + 1, ts =>
    match parseUnary f ts with
    | some (v, rest) => parseTermLoop f v rest
    | none => none

def parseTermLoop : Nat → JSNum → List Tok → Option (JSNum × List Tok)
  | 0, _, _ => none
  | f + 1, acc, .mul :: ts =>
    match parseUnary f ts with
    | some (v, rest) => parseTermLoop f (jsMul acc v) rest
    | none => none
  | f + 1, acc, .div :: ts =>
    match parseUnary f ts with
    | some (v, rest) => parseTermLoop f (jsDiv acc v) rest
    | none => none
  | _ + 1, acc, ts => some (acc, ts)

def parseUnary : Nat → List Tok → Option (JSNum × List Tok)
  | 0, _ => none
  | f + 1, .add :: ts => parseUnary f ts
  | f + 1, .sub :: ts =>
    match parseUnary f ts with
    | some (v, rest) => some (jsNeg v, rest)
    | none => none
  | f + 1, ts => parseAtom f ts

def parseAtom : Nat → List Tok → Option (JSNum × List Tok)
  | 0, _ => none
  | _ + 1, .num q :: ts => some (clampNum q, ts)
  | f + 1, .lp :: ts =>
    match parseExpr f ts with
    | some (v, .rp :: rest) => some (v, rest)
    | _ => none
  | _ + 1, _ => none

end

/-- Outcome of running the generated function: a thrown exception, the
undefined value (an empty body `return ;`), or a number. -/
inductive EvalOutcome where
  | thrown
  | undef
  | value (v : JSNum)
deriving DecidableEq

/-- Fuel handed to the parser; `parseRenderSound` and `szA_le_len` below
show it suffices to parse every rendered expression, so the fuel only
models the unbounded recursion of the JavaScript engine. -/
def parseFuel (ts : List Tok) : Nat :=
  14 * ts.length + 14

/-- The dynamic evaluator `new Function("return " + s)()` on the restricted
character set: lex, parse a full expression, evaluate.  An unlexable or
unparsable body throws (a SyntaxError at construction or a runtime error), a
body with no tokens returns undefined. -/
def evalJS (s : List Char) : EvalOutcome :=
  match tokenize s with
  | none => .thrown
  | some [] => .undef
  | some ts =>
    match parseExpr (parseFuel ts) ts with
    | some (v, []) => .value v
    | _ => .thrown

/-! ## Number printing (`Number.prototype.toString` on the repertoire the
claims exercise) -/

/-- The decimal digit character for `n < 10`. -/
def decDigit (n : Nat) : Char :=
  Char.ofNat (48 + n)

/-- Fuelled decimal printer for naturals, most significant digit first
(JavaScript prints finite integral doubles below 10^21 this way). -/
def natCharsF : Nat → Nat → List Char
  | 0, _ => []
  | f + 1, n => if n < 10 then [decDigit n] else natCharsF f (n / 10) ++ [decDigit (n % 10)]

/-- Decimal digits of a natural number. -/
def natChars (n : Nat) : List Char :=
  natCharsF (n + 1) n

/-- Fuelled long division producing the fractional digits of `r / d` for
`r < d`, stopping at the first exact remainder or after `fuel` digits. -/
def fracDigits : Nat → Nat → Nat → List Char
  | 0, _, _ => []
  | f + 1, r, d =>
    if r = 0 then []
    else decDigit (r * 10 / d) :: fracDigits f (r * 10 % d) d

/-- Decimal rendering of a rational: sign, integer part, and up to twenty
fractional digits.  On every value the claims exercise (integral results of
in-range arithmetic) this agrees with `Number.prototype.toString`; the
shortest-round-trip rendering of other fractions and the exponential form
of very large magnitudes are not modelled. -/
def ratToChars (q : JSRat) : List Char :=
  let sign : List Char := if jsrIsNeg q then ['-'] else []
  let n := q.num.natAbs
  let frac := fracDigits 20 (n % q.den) q.den
  sign ++ natChars (n / q.den) ++ (if frac = [] then [] else '.' :: frac)

/-- Body of the decimal-number grammar `[0-9]+(\.[0-9]+)?`. -/
def decBody (t : List Char) : Bool :=
  let ds := t.takeWhile isDigitChar
  let rest := t.dropWhile isDigitChar
  (decide (ds ≠ [])) &&
    (match rest with
     | [] => true
     | '.' :: fs => (decide (fs ≠ [])) && fs.all isDigitChar
     | _ => false)

/-- The decimal-number grammar `-?[0-9]+(\.[0-9]+)?`: every string this
accepts is parsed by JavaScript to a number, finite whenever its value is
below the overflow threshold. -/
def decChars (s : List Char) : Bool :=
  match s with
  | [] => false
  | c :: t => if c = '-' then decBody t else decBody (c :: t)

/-- A numeric result string: matches the decimal grammar (in particular it
is nonempty and does not carry the error prefix). -/
def isNumericString (s : String) : Bool :=
  decChars s.data

/-! ## The local evaluator (part_000, `calculateExpression`) -/

namespace ServiceJS

/-- Format the outcome of the dynamic evaluator following lines 71 to 80 of
part_000: a number passing `isFinite` is printed, any other returned value
maps to the invalid-number error, and a thrown exception is caught and
mapped to the unrecognized-expression error. -/
def formatOutcome : EvalOutcome → String
  | .thrown => "ERROR: Invalid or unrecognized mathematical expression."
  | .undef => "ERROR: Calculation resulted in an invalid number."
  | .value (.num q) =>
    if finiteRat q then ⟨ratToChars q⟩
    else "ERROR: Calculation resulted in an invalid number."
  | .value (.inf _) => "ERROR: Calculation resulted in an invalid number."
  | .value .nan => "ERROR: Calculation resulted in an invalid number."

/-- The local `calculateExpression` of part_000: re-sanitize and reject on
any difference, reject adjacent operator characters, then run the dynamic
evaluator on the (unchanged) input and format its outcome. -/
def calculateExpression (expression : String) : String :=
  let sanitizedExpression := stripDisallowed expression.data
  if sanitizedExpression ≠ expression.data then
    "ERROR: Expression contains invalid characters."
  else if adjOps sanitizedExpression then
    "ERROR: Invalid operator sequence."
  else
    formatOutcome (evalJS sanitizedExpression)

/-- The string handed to the dynamic evaluator, when one is: the control
flow of `calculateExpression` reaches `new Function` only after both guards
pass, and hands it the sanitized string, which at that point is the
unmodified input. -/
def evalArg (expression : String) : Option (List Char) :=
  let sanitizedExpression := stripDisallowed expression.data
  if sanitizedExpression ≠ expression.data then none
  else if adjOps sanitizedExpression then none
  else some sanitizedExpression

/-- Cleanup applied by the part_000 extractor to the raw model text before
validation: trim, strip label prefixes, remove all whitespace. -/
def cleanedText (raw : String) : List Char :=
  removeWs (stripLabels (jsTrim raw.data))

/-- The part_000 `extractExpressionFromImage` as a function of the model
response (`none`: the model call threw). -/
def extractExpressionFromImage (response : Option String) : String :=
  match response with
  | none => "ERROR: Failed to communicate with the AI model for extraction."
  | some raw =>
    let text := cleanedText raw
    if text ≠ [] ∧ hasDigit text ∧ hasOp text then
      ⟨stripDisallowedNoWs text⟩
    else if listBegins errPrefix text then
      ⟨text⟩
    else
      "ERROR: Could not recognize a valid expression in the image."

end ServiceJS

/-! ## The remote service (geminiService.ts) -/

namespace ServiceTS

/-- The TypeScript `extractExpressionFromImage` as a function of the model
response: trim, validate (nonempty with a digit and an operator), sanitize
on acceptance, pass an existing error through, otherwise synthesize the
unrecognized-expression error; a thrown model call maps to the
communication error. -/
def extractExpressionFromImage (response : Option String) : String :=
  match response with
  | none => "ERROR: Failed to communicate with the AI model for extraction."
  | some raw =>
    let text := jsTrim raw.data
    if text ≠ [] ∧ hasDigit text ∧ hasOp text then
      ⟨stripDisallowed text⟩
    else if listBegins errPrefix text then
      ⟨text⟩
    else
      "ERROR: Could not recognize a valid expression in the image."

end ServiceTS

/-! ## The numeric check of the remote evaluator

Lines 81 of geminiService.ts: `!isNaN(parseFloat(text)) &&
isFinite(Number(text))`.  `parseFloat` parses a maximal numeric prefix
(after optional whitespace and one sign) and is NaN exactly when no such
prefix exists; `Number` converts the whole string, accepting the empty
string (as zero), signed decimal literals with optional exponent, the
`Infinity` literals, and unsigned hex, octal and binary literals, and the
result is finite when the value stays below the overflow threshold. -/

/-- A hexadecimal digit. -/
def isHexChar (c : Char) : Bool :=
  isDigitChar c || ('a' ≤ c.toLower && c.toLower ≤ 'f')

/-- Value of a list of hexadecimal digit characters. -/
def hexVal (s : List Char) : Nat :=
  s.foldl (fun n c => n * 16 + (if isDigitChar c then c.toNat - 48 else c.toLower.toNat - 87)) 0

/-- An octal digit. -/
def isOctChar (c : Char) : Bool :=
  '0' ≤ c && c ≤ '7'

/-- Value of a list of octal digit characters. -/
def octVal (s : List Char) : Nat :=
  s.foldl (fun n c => n * 8 + (c.toNat - 48)) 0

/-- A binary digit. -/
def isBinChar (c : Char) : Bool :=
  c = '0' || c = '1'

/-- Value of a list of binary digit characters. -/
def binVal (s : List Char) : Nat :=
  s.foldl (fun n c => n * 2 + (c.toNat - 48)) 0

/-- Parse the exponent tail of a decimal literal: empty, or `e`/`E`, an
optional sign and at least one digit consuming the whole remainder. -/
def expTail (s : List Char) : Option ℤ :=
  match s with
  | [] => some 0
  | e :: r =>
    if e = 'e' ∨ e = 'E' then
      let (sign, r2) : ℤ × List Char :=
        match r with
        | '+' :: r2 => (1, r2)
        | '-' :: r2 => (-1, r2)
        | r2 => (1, r2)
      let ds := r2.takeWhile isDigitChar
      if ds ≠ [] ∧ r2.dropWhile isDigitChar = [] then
        some (sign * (digitsVal ds : ℤ))
      else none
    else none

/-- Multiply an exact fraction by a power of ten (the exponent part of a
decimal literal). -/
def jsrScale10 (q : JSRat) (e : Int) : JSRat :=
  if 0 ≤ e then ⟨q.num * 10 ^ e.toNat, q.den⟩ else ⟨q.num, q.den * 10 ^ (-e).toNat⟩

/-- Parse a whole unsigned decimal literal `digits+ (. digits*)? exp?` or
`. digits+ exp?`, returning its exact value. -/
def strDecimal (s : List Char) : Option JSRat :=
  let ip := s.takeWhile isDigitChar
  let r1 := s.dropWhile isDigitChar
  let withFrac : List Char → Option JSRat := fun fs =>
    let frac := fs.takeWhile isDigitChar
    let r2 := fs.dropWhile isDigitChar
    if ip = [] ∧ frac = [] then none
    else
      (expTail r2).map fun e =>
        jsrScale10 ⟨digitsVal ip * 10 ^ frac.length + digitsVal frac, 10 ^ frac.length⟩ e
  match r1 with
  | '.' :: fs => withFrac fs
  | r1 =>
    if ip = [] then none
    else (expTail r1).map fun e => jsrScale10 (jsrOfNat (digitsVal ip)) e

/-- `!isNaN(parseFloat(text))`: after whitespace and an optional sign the
string starts with a digit, a dot followed by a digit, or `Infinity`. -/
def parseFloatNotNaN (t : List Char) : Bool :=
  let s := t.dropWhile jsWhitespace
  let b : List Char :=
    match s with
    | '+' :: r => r
    | '-' :: r => r
    | r => r
  match b with
  | c :: r =>
    isDigitChar c || (c = '.' && (match r with
      | d :: _ => isDigitChar d
      | [] => false)) || listBegins "Infinity".data b
  | [] => false

/-- `isFinite(Number(text))`: the whole trimmed string is a numeric literal
whose value rounds to a finite double. -/
def numberIsFinite (t : List Char) : Bool :=
  let s := jsTrim t
  match s with
  | [] => true
  | _ =>
    let (signed, neg, b) : Bool × Bool × List Char :=
      match s with
      | '+' :: r => (true, false, r)
      | '-' :: r => (true, true, r)
      | r => (false, false, r)
    if b = "Infinity".data then false
    else if !signed ∧ (listBegins "0x".data b ∨ listBegins "0X".data b) then
      let hs := b.drop 2
      decide (hs ≠ []) && hs.all isHexChar && decide (hexVal hs < ovfN)
    else if !signed ∧ (listBegins "0o".data b ∨ listBegins "0O".data b) then
      let hs := b.drop 2
      decide (hs ≠ []) && hs.all isOctChar && decide (octVal hs < ovfN)
    else if !signed ∧ (listBegins "0b".data b ∨ listBegins "0B".data b) then
      let hs := b.drop 2
      decide (hs ≠ []) && hs.all isBinChar && decide (binVal hs < ovfN)
    else
      match strDecimal b with
      | some v => finiteRat (if neg then jsrNeg v else v)
      | none => false

/-- The full response check of the remote `calculateExpression`. -/
def remoteNumericOk (t : List Char) : Bool :=
  parseFloatNotNaN t && numberIsFinite t

namespace ServiceTS

/-- The TypeScript `calculateExpression` as a function of the model
response: trim; return the text verbatim when it passes the numeric check;
pass an existing error through; otherwise synthesize the invalid-format
error; a thrown model call maps to the communication error. -/
def calculateExpression (response : Option String) : String :=
  match response with
  | none => "ERROR: Failed to communicate with the AI model for calculation."
  | some raw =>
    let text := jsTrim raw.data
    if remoteNumericOk text then
      ⟨text⟩
    else if listBegins errPrefix text then
      ⟨text⟩
    else
      "ERROR: AI returned an invalid numerical format."

end ServiceTS

/-! ## General lemmas about the string utilities -/

set_option maxRecDepth 40000

/-- A filter leaves a list unchanged exactly when every element passes. -/
theorem filter_eq_self_iff_all {p : Char → Bool} {l : List Char} :
    l.filter p = l ↔ l.all p = true := by
  rw [List.all_eq_true, List.filter_eq_self]

/-- Every element of a filtered list passes the filter. -/
theorem all_filter (p : Char → Bool) (l : List Char) :
    (l.filter p).all p = true := by
  rw [List.all_eq_true]
  intro a ha
  exact List.of_mem_filter ha

/-- Filtering is idempotent. -/
theorem filter_idem (p : Char → Bool) (l : List Char) :
    (l.filter p).filter p = l.filter p :=
  filter_eq_self_iff_all.mpr (all_filter p l)

/-- A property of all elements persists through a filter. -/
theorem all_of_filter_of_all {p q : Char → Bool} {l : List Char}
    (h : l.all q = true) : (l.filter p).all q = true := by
  rw [List.all_eq_true] at h ⊢
  intro a ha
  exact h a (List.mem_of_mem_filter ha)

/-- A list with an element passing an allowed predicate filters to a
nonempty list. -/
theorem filter_ne_nil_of_any {p q : Char → Bool} {l : List Char}
    (h : l.any q = true) (hpq : ∀ c, q c = true → p c = true) :
    l.filter p ≠ [] := by
  rw [List.any_eq_true] at h
  obtain ⟨a, ha, hqa⟩ := h
  intro hnil
  have : a ∈ l.filter p := List.mem_filter.mpr ⟨ha, hpq a hqa⟩
  rw [hnil] at this
  exact List.not_mem_nil a this

/-! ## Claim theorems: local evaluator guards -/

/-- C4: local evaluator pre-validation: any character outside the allowed
class yields exactly the invalid-characters error; an allowed string with
two adjacent operator characters yields exactly the invalid-operator-
sequence error; in particular both "3++4" and "5*/2" are rejected with the
operator-sequence error. -/
theorem c4_local_prevalidation :
    (∀ s : String, s.data.all allowedChar = false →
      ServiceJS.calculateExpression s = "ERROR: Expression contains invalid characters.")
    ∧ (∀ s : String, s.data.all allowedChar = true → adjOps s.data = true →
      ServiceJS.calculateExpression s = "ERROR: Invalid operator sequence.")
    ∧ ServiceJS.calculateExpression "3++4" = "ERROR: Invalid operator sequence."
    ∧ ServiceJS.calculateExpression "5*/2" = "ERROR: Invalid operator sequence." := by
  refine ⟨?_, ?_, by decide, by decide⟩
  · intro s h
    have hne : stripDisallowed s.data ≠ s.data := by
      intro he
      rw [stripDisallowed, filter_eq_self_iff_all] at he
      rw [he] at h
      cases h
    simp only [ServiceJS.calculateExpression]
    rw [if_pos hne]
  · intro s h1 h2
    have he : stripDisallowed s.data = s.data := by
      rw [stripDisallowed, filter_eq_self_iff_all]
      exact h1
    simp only [ServiceJS.calculateExpression]
    rw [if_neg (by rw [he]; exact fun hx => hx rfl), he, if_pos h2]

/-- C4 witness at the inputs "a" (a disallowed letter) and "3+*4" (allowed
characters, adjacent operators). -/
theorem c4_local_prevalidation_w :
    ServiceJS.calculateExpression "a" = "ERROR: Expression contains invalid characters."
    ∧ ServiceJS.calculateExpression "3+*4" = "ERROR: Invalid operator sequence." :=
  ⟨c4_local_prevalidation.1 "a" (by decide),
   c4_local_prevalidation.2.1 "3+*4" (by decide) (by decide)⟩

/-- C10: the operator-sequence guard only fires on immediately adjacent
operator characters: "3+ +4" passes both guards and evaluates to "7" (the
second plus acting as a unary sign), rather than being rejected. -/
theorem c10_adjacent_gap :
    ServiceJS.calculateExpression "3+ +4" = "7"
    ∧ ServiceJS.calculateExpression "3+ +4" ≠ "ERROR: Invalid operator sequence."
    ∧ adjOps "3+ +4".data = false := by
  refine ⟨by decide, by decide, by decide⟩
/-- C6: failure mapping of the local evaluator: an evaluation outcome that
is an infinity or NaN (division by zero, overflow) maps to exactly the
invalid-number error, a thrown (syntactically malformed) evaluation maps to
exactly the unrecognized-expression error, and in particular "5/0" returns
the invalid-number error, not "Infinity". -/
theorem c6_failure_mapping :
    ServiceJS.calculateExpression "5/0" = "ERROR: Calculation resulted in an invalid number."
    ∧ ServiceJS.calculateExpression "5/0" ≠ "Infinity"
    ∧ (∀ (s : String) (b : Bool), stripDisallowed s.data = s.data → adjOps s.data = false →
        evalJS s.data = .value (.inf b) →
        ServiceJS.calculateExpression s = "ERROR: Calculation resulted in an invalid number.")
    ∧ (∀ s : String, stripDisallowed s.data = s.data → adjOps s.data = false →
        evalJS s.data = .value .nan →
        ServiceJS.calculateExpression s = "ERROR: Calculation resulted in an invalid number.")
    ∧ (∀ s : String, stripDisallowed s.data = s.data → adjOps s.data = false →
        evalJS s.data = .thrown →
        ServiceJS.calculateExpression s = "ERROR: Invalid or unrecognized mathematical expression.") := by
  refine ⟨by decide, by decide, ?_, ?_, ?_⟩
  · intro s b h1 h2 h3
    simp only [ServiceJS.calculateExpression]
    rw [if_neg (by rw [h1]; exact fun hx => hx rfl), h1, if_neg (by rw [h2]; exact Bool.false_ne_true), h3]
    rfl
  · intro s h1 h2 h3
    simp only [ServiceJS.calculateExpression]
    rw [if_neg (by rw [h1]; exact fun hx => hx rfl), h1, if_neg (by rw [h2]; exact Bool.false_ne_true), h3]
    rfl
  · intro s h1 h2 h3
    simp only [ServiceJS.calculateExpression]
    rw [if_neg (by rw [h1]; exact fun hx => hx rfl), h1, if_neg (by rw [h2]; exact Bool.false_ne_true), h3]
    rfl

/-- C6 witness at "5/0" (positive infinity), "0/0" (NaN) and "()" (thrown
syntax error). -/
theorem c6_failure_mapping_w :
    ServiceJS.calculateExpression "5/0" = "ERROR: Calculation resulted in an invalid number."
    ∧ ServiceJS.calculateExpression "0/0" = "ERROR: Calculation resulted in an invalid number."
    ∧ ServiceJS.calculateExpression "()" = "ERROR: Invalid or unrecognized mathematical expression." :=
  ⟨c6_failure_mapping.2.2.1 "5/0" false (by decide) (by decide) (by decide),
   c6_failure_mapping.2.2.2.1 "0/0" (by decide) (by decide) (by decide),
   c6_failure_mapping.2.2.2.2 "()" (by decide) (by decide) (by decide)⟩

/-- C9: guard-before-eval safety: whenever the control flow of the local
evaluator hands a string to the dynamic evaluator, that string is the
unmodified input, all its characters lie in the allowed class and no two
operator characters are adjacent; and when no string is handed over, the
function has already returned one of the two guard errors, so evaluation of
a string with a disallowed character is unreachable. -/
theorem c9_guard_before_eval :
    (∀ (s : String) (t : List Char), ServiceJS.evalArg s = some t →
      t = s.data ∧ t.all allowedChar = true ∧ adjOps t = false)
    ∧ (∀ (s : String) (t : List Char), ServiceJS.evalArg s = some t →
      ServiceJS.calculateExpression s = ServiceJS.formatOutcome (evalJS t))
    ∧ (∀ s : String, ServiceJS.evalArg s = none →
      ServiceJS.calculateExpression s = "ERROR: Expression contains invalid characters."
      ∨ ServiceJS.calculateExpression s = "ERROR: Invalid operator sequence.") := by
  have harg : ∀ (s : String) (t : List Char), ServiceJS.evalArg s = some t →
      stripDisallowed s.data = s.data ∧ adjOps s.data = false ∧ t = s.data := by
    intro s t h
    simp only [ServiceJS.evalArg] at h
    by_cases h1 : stripDisallowed s.data ≠ s.data
    · rw [if_pos h1] at h
      cases h
    · rw [if_neg h1] at h
      push_neg at h1
      by_cases h2 : adjOps (stripDisallowed s.data) = true
      · rw [if_pos h2] at h
        cases h
      · rw [if_neg h2] at h
        rw [h1] at h2
        exact ⟨h1, Bool.eq_false_iff.mpr h2, by rw [h1] at h; exact (Option.some_inj.mp h).symm⟩
  refine ⟨?_, ?_, ?_⟩
  · intro s t h
    obtain ⟨h1, h2, h3⟩ := harg s t h
    refine ⟨h3, ?_, by rw [h3]; exact h2⟩
    rw [h3, ← h1, stripDisallowed]
    exact all_filter _ _
  · intro s t h
    obtain ⟨h1, h2, h3⟩ := harg s t h
    simp only [ServiceJS.calculateExpression]
    rw [if_neg (by rw [h1]; exact fun hx => hx rfl), h1, if_neg (by rw [h2]; exact Bool.false_ne_true), h3]
  · intro s h
    simp only [ServiceJS.evalArg] at h
    simp only [ServiceJS.calculateExpression]
    by_cases h1 : stripDisallowed s.data ≠ s.data
    · rw [if_pos h1]
      exact Or.inl rfl
    · rw [if_neg h1] at h ⊢
      by_cases h2 : adjOps (stripDisallowed s.data) = true
      · rw [if_pos h2]
        exact Or.inr rfl
      · rw [if_neg h2] at h
        cases h

/-- C9 witness at "1+1" (both guards pass, the evaluator receives the
input unchanged) and "a" (the character guard fires first). -/
theorem c9_guard_before_eval_w :
    ("1+1".data = "1+1".data ∧ "1+1".data.all allowedChar = true ∧ adjOps "1+1".data = false)
    ∧ ServiceJS.calculateExpression "1+1" = ServiceJS.formatOutcome (evalJS "1+1".data)
    ∧ (ServiceJS.calculateExpression "a" = "ERROR: Expression contains invalid characters."
       ∨ ServiceJS.calculateExpression "a" = "ERROR: Invalid operator sequence.") :=
  ⟨c9_guard_before_eval.1 "1+1" "1+1".data (by decide),
   c9_guard_before_eval.2.1 "1+1" "1+1".data (by decide),
   c9_guard_before_eval.2.2 "a" (by decide)⟩


/-- A string with a digit is nonempty. -/
theorem ne_nil_of_hasDigit {t : List Char} (hd : hasDigit t = true) : t ≠ [] := by
  rw [hasDigit, List.any_eq_true] at hd
  obtain ⟨a, ha, _⟩ := hd
  intro hnil
  rw [hnil] at ha
  exact List.not_mem_nil a ha

/-- C2: extractor validation policy, for both extractor variants: the
cleaned model text is accepted (and sanitized) exactly when it contains a
digit and an operator character; otherwise a text already starting with
ERROR: is returned as cleaned, and any other text is replaced by the
synthesized unrecognized-expression error; in particular a response without
digits or without operators always yields an ERROR:-prefixed return. -/
theorem c2_extractor_validation :
    (∀ raw : String,
      (hasDigit (ServiceJS.cleanedText raw) = true ∧ hasOp (ServiceJS.cleanedText raw) = true →
        ServiceJS.extractExpressionFromImage (some raw) = ⟨stripDisallowedNoWs (ServiceJS.cleanedText raw)⟩)
      ∧ (¬(hasDigit (ServiceJS.cleanedText raw) = true ∧ hasOp (ServiceJS.cleanedText raw) = true) →
          listBegins errPrefix (ServiceJS.cleanedText raw) = true →
          ServiceJS.extractExpressionFromImage (some raw) = ⟨ServiceJS.cleanedText raw⟩)
      ∧ (¬(hasDigit (ServiceJS.cleanedText raw) = true ∧ hasOp (ServiceJS.cleanedText raw) = true) →
          listBegins errPrefix (ServiceJS.cleanedText raw) = false →
          ServiceJS.extractExpressionFromImage (some raw) =
            "ERROR: Could not recognize a valid expression in the image.")
      ∧ (hasDigit (ServiceJS.cleanedText raw) = false ∨ hasOp (ServiceJS.cleanedText raw) = false →
          beginsError (ServiceJS.extractExpressionFromImage (some raw)) = true))
    ∧ (∀ raw : String,
      (hasDigit (jsTrim raw.data) = true ∧ hasOp (jsTrim raw.data) = true →
        ServiceTS.extractExpressionFromImage (some raw) = ⟨stripDisallowed (jsTrim raw.data)⟩)
      ∧ (¬(hasDigit (jsTrim raw.data) = true ∧ hasOp (jsTrim raw.data) = true) →
          listBegins errPrefix (jsTrim raw.data) = true →
          ServiceTS.extractExpressionFromImage (some raw) = ⟨jsTrim raw.data⟩)
      ∧ (¬(hasDigit (jsTrim raw.data) = true ∧ hasOp (jsTrim raw.data) = true) →
          listBegins errPrefix (jsTrim raw.data) = false →
          ServiceTS.extractExpressionFromImage (some raw) =
            "ERROR: Could not recognize a valid expression in the image.")
      ∧ (hasDigit (jsTrim raw.data) = false ∨ hasOp (jsTrim raw.data) = false →
          beginsError (ServiceTS.extractExpressionFromImage (some raw)) = true)) := by
  constructor
  · intro raw
    have hacc : hasDigit (ServiceJS.cleanedText raw) = true ∧ hasOp (ServiceJS.cleanedText raw) = true →
        ServiceJS.extractExpressionFromImage (some raw) = ⟨stripDisallowedNoWs (ServiceJS.cleanedText raw)⟩ := by
      rintro ⟨hd, ho⟩
      simp only [ServiceJS.extractExpressionFromImage]
      rw [if_pos ⟨ne_nil_of_hasDigit hd, hd, ho⟩]
    have hpass : ¬(hasDigit (ServiceJS.cleanedText raw) = true ∧ hasOp (ServiceJS.cleanedText raw) = true) →
        listBegins errPrefix (ServiceJS.cleanedText raw) = true →
        ServiceJS.extractExpressionFromImage (some raw) = ⟨ServiceJS.cleanedText raw⟩ := by
      intro hno hb
      simp only [ServiceJS.extractExpressionFromImage]
      rw [if_neg (fun hx => hno ⟨hx.2.1, hx.2.2⟩), if_pos hb]
    have hsynth : ¬(hasDigit (ServiceJS.cleanedText raw) = true ∧ hasOp (ServiceJS.cleanedText raw) = true) →
        listBegins errPrefix (ServiceJS.cleanedText raw) = false →
        ServiceJS.extractExpressionFromImage (some raw) =
          "ERROR: Could not recognize a valid expression in the image." := by
      intro hno hb
      simp only [ServiceJS.extractExpressionFromImage]
      rw [if_neg (fun hx => hno ⟨hx.2.1, hx.2.2⟩),
        if_neg (by rw [hb]; exact Bool.false_ne_true)]
    refine ⟨hacc, hpass, hsynth, ?_⟩
    intro hor
    have hno : ¬(hasDigit (ServiceJS.cleanedText raw) = true ∧ hasOp (ServiceJS.cleanedText raw) = true) := by
      rintro ⟨hd, ho⟩
      rcases hor with h | h
      · rw [hd] at h; cases h
      · rw [ho] at h; cases h
    by_cases hb : listBegins errPrefix (ServiceJS.cleanedText raw) = true
    · rw [hpass hno hb]
      exact hb
    · rw [hsynth hno (Bool.eq_false_iff.mpr hb)]
      decide
  · intro raw
    have hacc : hasDigit (jsTrim raw.data) = true ∧ hasOp (jsTrim raw.data) = true →
        ServiceTS.extractExpressionFromImage (some raw) = ⟨stripDisallowed (jsTrim raw.data)⟩ := by
      rintro ⟨hd, ho⟩
      simp only [ServiceTS.extractExpressionFromImage]
      rw [if_pos ⟨ne_nil_of_hasDigit hd, hd, ho⟩]
    have hpass : ¬(hasDigit (jsTrim raw.data) = true ∧ hasOp (jsTrim raw.data) = true) →
        listBegins errPrefix (jsTrim raw.data) = true →
        ServiceTS.extractExpressionFromImage (some raw) = ⟨jsTrim raw.data⟩ := by
      intro hno hb
      simp only [ServiceTS.extractExpressionFromImage]
      rw [if_neg (fun hx => hno ⟨hx.2.1, hx.2.2⟩), if_pos hb]
    have hsynth : ¬(hasDigit (jsTrim raw.data) = true ∧ hasOp (jsTrim raw.data) = true) →
        listBegins errPrefix (jsTrim raw.data) = false →
        ServiceTS.extractExpressionFromImage (some raw) =
          "ERROR: Could not recognize a valid expression in the image." := by
      intro hno hb
      simp only [ServiceTS.extractExpressionFromImage]
      rw [if_neg (fun hx => hno ⟨hx.2.1, hx.2.2⟩),
        if_neg (by rw [hb]; exact Bool.false_ne_true)]
    refine ⟨hacc, hpass, hsynth, ?_⟩
    intro hor
    have hno : ¬(hasDigit (jsTrim raw.data) = true ∧ hasOp (jsTrim raw.data) = true) := by
      rintro ⟨hd, ho⟩
      rcases hor with h | h
      · rw [hd] at h; cases h
      · rw [ho] at h; cases h
    by_cases hb : listBegins errPrefix (jsTrim raw.data) = true
    · rw [hpass hno hb]
      exact hb
    · rw [hsynth hno (Bool.eq_false_iff.mpr hb)]
      decide

/-- C2 witness: the part_000 extractor accepts "3+4" and error-tags the
digitless response "hello", and the TypeScript extractor accepts "12+5"
after trimming. -/
theorem c2_extractor_validation_w :
    ServiceJS.extractExpressionFromImage (some "3+4") = ⟨stripDisallowedNoWs (ServiceJS.cleanedText "3+4")⟩
    ∧ beginsError (ServiceJS.extractExpressionFromImage (some "hello")) = true
    ∧ ServiceTS.extractExpressionFromImage (some " 12+5 ") = ⟨stripDisallowed (jsTrim " 12+5 ".data)⟩ :=
  ⟨(c2_extractor_validation.1 "3+4").1 (by decide),
   (c2_extractor_validation.1 "hello").2.2.2 (by decide),
   (c2_extractor_validation.2 " 12+5 ").1 (by decide)⟩

/-- A character allowed without whitespace is allowed with it. -/
theorem allowedCharNoWs_imp {c : Char} (h : allowedCharNoWs c = true) :
    allowedChar c = true := by
  simp only [allowedCharNoWs, Bool.or_eq_true] at h
  simp only [allowedChar, Bool.or_eq_true]
  tauto

/-- C3: extractor sanitization: the strip-disallowed-characters
substitution is idempotent (for both variants), and every non-error return
of either extractor consists only of characters in the allowed class
`[0-9.+\-*/()\s]`. -/
theorem c3_sanitization :
    (∀ s : String, stripDisallowed (stripDisallowed s.data) = stripDisallowed s.data)
    ∧ (∀ s : String, stripDisallowedNoWs (stripDisallowedNoWs s.data) = stripDisallowedNoWs s.data)
    ∧ (∀ resp : Option String, beginsError (ServiceTS.extractExpressionFromImage resp) = false →
        (ServiceTS.extractExpressionFromImage resp).data.all allowedChar = true)
    ∧ (∀ resp : Option String, beginsError (ServiceJS.extractExpressionFromImage resp) = false →
        (ServiceJS.extractExpressionFromImage resp).data.all allowedChar = true) := by
  refine ⟨fun s => filter_idem _ _, fun s => filter_idem _ _, ?_, ?_⟩
  · intro resp h
    match resp with
    | none => exact absurd h (by decide)
    | some raw =>
      simp only [ServiceTS.extractExpressionFromImage] at h ⊢
      by_cases hc : jsTrim raw.data ≠ [] ∧ hasDigit (jsTrim raw.data) = true ∧ hasOp (jsTrim raw.data) = true
      · rw [if_pos hc]
        exact all_filter _ _
      · rw [if_neg hc] at h ⊢
        by_cases hb : listBegins errPrefix (jsTrim raw.data) = true
        · rw [if_pos hb] at h
          exact absurd h (by rw [show beginsError ⟨jsTrim raw.data⟩ = listBegins errPrefix (jsTrim raw.data) from rfl, hb]; decide)
        · rw [if_neg (by rw [Bool.eq_false_iff.mpr hb]; exact Bool.false_ne_true)] at h
          exact absurd h (by decide)
  · intro resp h
    match resp with
    | none => exact absurd h (by decide)
    | some raw =>
      simp only [ServiceJS.extractExpressionFromImage] at h ⊢
      by_cases hc : ServiceJS.cleanedText raw ≠ [] ∧ hasDigit (ServiceJS.cleanedText raw) = true ∧ hasOp (ServiceJS.cleanedText raw) = true
      · rw [if_pos hc]
        have := all_filter allowedCharNoWs (ServiceJS.cleanedText raw)
        rw [List.all_eq_true] at this ⊢
        exact fun a ha => allowedCharNoWs_imp (this a ha)
      · rw [if_neg hc] at h ⊢
        by_cases hb : listBegins errPrefix (ServiceJS.cleanedText raw) = true
        · rw [if_pos hb] at h
          exact absurd h (by rw [show beginsError ⟨ServiceJS.cleanedText raw⟩ = listBegins errPrefix (ServiceJS.cleanedText raw) from rfl, hb]; decide)
        · rw [if_neg (by rw [Bool.eq_false_iff.mpr hb]; exact Bool.false_ne_true)] at h
          exact absurd h (by decide)

/-- C3 witness: the pipeline output for the response "1+1=2" is non-error
and all its characters are allowed. -/
theorem c3_sanitization_w :
    beginsError (ServiceTS.extractExpressionFromImage (some "1+1=2")) = false
    ∧ (ServiceTS.extractExpressionFromImage (some "1+1=2")).data.all allowedChar = true :=
  ⟨by decide, c3_sanitization.2.2.1 (some "1+1=2") (by decide)⟩

/-- C8: extractor response cleaning (part_000 variant, the one with label
stripping and whitespace removal): every non-error return value contains no
whitespace character at all, hence no leading or trailing whitespace and no
internal run of more than one whitespace character; the label prefixes
answer:/result:/expression: are stripped case-insensitively and internal
whitespace collapses away. -/
theorem c8_extractor_cleaning :
    (∀ resp : Option String, beginsError (ServiceJS.extractExpressionFromImage resp) = false →
        (ServiceJS.extractExpressionFromImage resp).data.all (fun c => !jsWhitespace c) = true)
    ∧ ServiceJS.extractExpressionFromImage (some "answer: 3+4") = "3+4"
    ∧ ServiceJS.extractExpressionFromImage (some "EXPRESSION:- 2*3") = "-2*3"
    ∧ ServiceJS.extractExpressionFromImage (some "  1 + 2  ") = "1+2" := by
  refine ⟨?_, by decide, by decide, by decide⟩
  intro resp h
  match resp with
  | none => exact absurd h (by decide)
  | some raw =>
    simp only [ServiceJS.extractExpressionFromImage] at h ⊢
    by_cases hc : ServiceJS.cleanedText raw ≠ [] ∧ hasDigit (ServiceJS.cleanedText raw) = true ∧ hasOp (ServiceJS.cleanedText raw) = true
    · rw [if_pos hc]
      have hclean : (ServiceJS.cleanedText raw).all (fun c => !jsWhitespace c) = true :=
        all_filter _ _
      exact all_of_filter_of_all hclean
    · rw [if_neg hc] at h ⊢
      by_cases hb : listBegins errPrefix (ServiceJS.cleanedText raw) = true
      · rw [if_pos hb] at h
        exact absurd h (by rw [show beginsError ⟨ServiceJS.cleanedText raw⟩ = listBegins errPrefix (ServiceJS.cleanedText raw) from rfl, hb]; decide)
      · rw [if_neg (by rw [Bool.eq_false_iff.mpr hb]; exact Bool.false_ne_true)] at h
        exact absurd h (by decide)

/-- C8 witness: the response "answer: 3 + 4" yields the non-error output
"3+4", which contains no whitespace. -/
theorem c8_extractor_cleaning_w :
    beginsError (ServiceJS.extractExpressionFromImage (some "answer: 3 + 4")) = false
    ∧ (ServiceJS.extractExpressionFromImage (some "answer: 3 + 4")).data.all (fun c => !jsWhitespace c) = true :=
  ⟨by decide, c8_extractor_cleaning.1 (some "answer: 3 + 4") (by decide)⟩

/-- The decimal digit character of `k < 10` is a digit. -/
theorem decDigit_isDigit {k : Nat} (h : k < 10) : isDigitChar (decDigit k) = true := by
  interval_cases k <;> decide

/-- The fuelled natural printer yields a nonempty all-digit list. -/
theorem natCharsF_all {f n : Nat} (h : n < f) :
    (natCharsF f n).all isDigitChar = true ∧ natCharsF f n ≠ [] := by
  induction f generalizing n with
  | zero => omega
  | succ f ih =>
    rw [natCharsF]
    by_cases hn : n < 10
    · rw [if_pos hn]
      exact ⟨by simp [decDigit_isDigit hn], by simp⟩
    · rw [if_neg hn]
      have hd : n / 10 < f := by
        have h1 : n / 10 < n := Nat.div_lt_self (by omega) (by omega)
        omega
      obtain ⟨h1, h2⟩ := ih hd
      refine ⟨?_, by simp⟩
      rw [List.all_append]
      simp [h1, decDigit_isDigit (Nat.mod_lt n (by omega))]

/-- The long-division digits are digits (the denominator-zero case divides
by zero and prints zeros). -/
theorem fracDigits_all {f r d : Nat} (h : d = 0 ∨ r < d) :
    (fracDigits f r d).all isDigitChar = true := by
  induction f generalizing r with
  | zero => rfl
  | succ f ih =>
    rw [fracDigits]
    by_cases hr : r = 0
    · rw [if_pos hr]; rfl
    · rw [if_neg hr]
      rw [List.all_cons, Bool.and_eq_true]
      rcases h with h0 | hlt
      · subst h0
        exact ⟨decDigit_isDigit (by simp [Nat.div_zero]), ih (Or.inl rfl)⟩
      · have hd : 0 < d := by omega
        refine ⟨decDigit_isDigit ?_, ih (Or.inr (Nat.mod_lt _ hd))⟩
        rw [Nat.div_lt_iff_lt_mul hd]
        omega

/-- Scanning an all-digit prefix: `takeWhile` keeps it whole and `dropWhile`
passes over it. -/
theorem scan_digit_append {l r : List Char} (h : l.all isDigitChar = true) :
    (l ++ r).takeWhile isDigitChar = l ++ r.takeWhile isDigitChar
    ∧ (l ++ r).dropWhile isDigitChar = r.dropWhile isDigitChar := by
  induction l with
  | nil => exact ⟨rfl, rfl⟩
  | cons a l ih =>
    rw [List.all_cons, Bool.and_eq_true] at h
    obtain ⟨ha, hl⟩ := h
    obtain ⟨ht, hd⟩ := ih hl
    constructor
    · rw [List.cons_append, List.takeWhile_cons, if_pos ha, ht]
      rfl
    · rw [List.cons_append, List.dropWhile_cons, if_pos ha, hd]

/-- A digit is not the minus sign. -/
theorem digit_ne_minus {a : Char} (h : isDigitChar a = true) : a ≠ '-' := by
  intro he
  subst he
  exact absurd h (by decide)

/-- The body of the decimal grammar accepts digits followed by an optional
dot-and-digits fragment. -/
theorem decBody_shape {ip fr : List Char} (hip : ip.all isDigitChar = true) (hne : ip ≠ [])
    (hfr : fr.all isDigitChar = true) :
    decBody (ip ++ (if fr = [] then [] else '.' :: fr)) = true := by
  by_cases hf : fr = []
  · rw [if_pos hf]
    simp only [decBody, List.append_nil]
    have hsc := scan_digit_append (r := ([] : List Char)) hip
    rw [List.append_nil] at hsc
    rw [hsc.1, hsc.2]
    simp [hne]
  · rw [if_neg hf]
    simp only [decBody]
    obtain ⟨ht, hd⟩ := scan_digit_append (r := '.' :: fr) hip
    have hdot : isDigitChar '.' = false := by decide
    rw [ht, hd, List.takeWhile_cons, List.dropWhile_cons, hdot]
    simp [hne, hf, hfr]

/-- The decimal rendering of any exact fraction matches the decimal
grammar. -/
theorem decChars_ratToChars (q : JSRat) : decChars (ratToChars q) = true := by
  have hnum := natCharsF_all (n := q.num.natAbs / q.den) (f := q.num.natAbs / q.den + 1) (by omega)
  have hfr : (fracDigits 20 (q.num.natAbs % q.den) q.den).all isDigitChar = true := by
    refine fracDigits_all ?_
    rcases Nat.eq_zero_or_pos q.den with h | h
    · exact Or.inl h
    · exact Or.inr (Nat.mod_lt _ h)
  have hbody := decBody_shape hnum.1 hnum.2 hfr
  have hcons : ∀ (c : Char) (t : List Char),
      decChars (c :: t) = if c = '-' then decBody t else decBody (c :: t) := fun _ _ => rfl
  simp only [ratToChars, natChars]
  by_cases hs : jsrIsNeg q = true
  · rw [if_pos hs, List.singleton_append]
    exact hbody
  · rw [if_neg hs, List.nil_append]
    rcases hx : natCharsF (q.num.natAbs / q.den + 1) (q.num.natAbs / q.den) with _ | ⟨a, l⟩
    · exact absurd hx hnum.2
    · have ha : isDigitChar a = true := by
        have h1 := hnum.1
        rw [hx, List.all_cons, Bool.and_eq_true] at h1
        exact h1.1
      rw [hx] at hbody
      rw [List.cons_append, hcons, if_neg (digit_ne_minus ha)]
      exact hbody

/-- A string matching the decimal grammar is nonempty. -/
theorem decChars_ne_nil {s : List Char} (h : decChars s = true) : s ≠ [] := by
  intro he
  subst he
  exact absurd h (by decide)

/-- A nonempty character list makes a nonempty string. -/
theorem mk_ne_empty {l : List Char} (h : l ≠ []) : (⟨l⟩ : String) ≠ "" := by
  intro he
  exact h (congrArg String.data he)

/-- A string starting with the error prefix is nonempty. -/
theorem ne_nil_of_beginsError {t : List Char} (h : listBegins errPrefix t = true) : t ≠ [] := by
  intro he
  subst he
  exact absurd h (by decide)

/-- A digit character is allowed. -/
theorem digit_allowed {c : Char} (h : isDigitChar c = true) : allowedChar c = true := by
  simp [allowedChar, h]

/-- C7: remote evaluator response validation: the trimmed model text is
returned verbatim when it passes the finite-number check, an ERROR:-tagged
text failing the check is passed through unchanged, and anything else is
replaced by exactly the invalid-format error. -/
theorem c7_remote_validation :
    ∀ raw : String,
      (remoteNumericOk (jsTrim raw.data) = true →
        ServiceTS.calculateExpression (some raw) = ⟨jsTrim raw.data⟩)
      ∧ (remoteNumericOk (jsTrim raw.data) = false →
          listBegins errPrefix (jsTrim raw.data) = true →
          ServiceTS.calculateExpression (some raw) = ⟨jsTrim raw.data⟩)
      ∧ (remoteNumericOk (jsTrim raw.data) = false →
          listBegins errPrefix (jsTrim raw.data) = false →
          ServiceTS.calculateExpression (some raw) =
            "ERROR: AI returned an invalid numerical format.") := by
  intro raw
  refine ⟨?_, ?_, ?_⟩
  · intro h
    simp only [ServiceTS.calculateExpression]
    rw [if_pos h]
  · intro h hb
    simp only [ServiceTS.calculateExpression]
    rw [if_neg (by rw [h]; decide), if_pos hb]
  · intro h hb
    simp only [ServiceTS.calculateExpression]
    rw [if_neg (by rw [h]; decide), if_neg (by rw [hb]; decide)]

/-- C7 witness at the responses " 242 " (finite number, returned verbatim
as "242"), "ERROR: Invalid expression" (passed through) and "forty two"
(replaced by the invalid-format error). -/
theorem c7_remote_validation_w :
    ServiceTS.calculateExpression (some " 242 ") = ⟨jsTrim " 242 ".data⟩
    ∧ ServiceTS.calculateExpression (some "ERROR: Invalid expression") = ⟨jsTrim "ERROR: Invalid expression".data⟩
    ∧ ServiceTS.calculateExpression (some "forty two") = "ERROR: AI returned an invalid numerical format." :=
  ⟨(c7_remote_validation " 242 ").1 (by decide),
   (c7_remote_validation "ERROR: Invalid expression").2.1 (by decide) (by decide),
   (c7_remote_validation "forty two").2.2 (by decide) (by decide)⟩

/-- C1: totality of the caller-facing API: the extractor never returns the
empty string and every return value is either ERROR:-prefixed or a
sanitized expression (all characters allowed); the local evaluator never
returns the empty string and every return value is either ERROR:-prefixed
or a string matching the decimal-number grammar (hence parseable as a
finite number).  Both functions are total Lean functions, the embedding of
the fact that every exception is caught inside the sources. -/
theorem c1_total_api :
    (∀ resp : Option String,
      ServiceTS.extractExpressionFromImage resp ≠ ""
      ∧ (beginsError (ServiceTS.extractExpressionFromImage resp) = true
         ∨ (ServiceTS.extractExpressionFromImage resp).data.all allowedChar = true))
    ∧ (∀ s : String,
      ServiceJS.calculateExpression s ≠ ""
      ∧ (beginsError (ServiceJS.calculateExpression s) = true
         ∨ isNumericString (ServiceJS.calculateExpression s) = true)) := by
  constructor
  · intro resp
    match resp with
    | none => exact ⟨by decide, Or.inl (by decide)⟩
    | some raw =>
      simp only [ServiceTS.extractExpressionFromImage]
      by_cases hc : jsTrim raw.data ≠ [] ∧ hasDigit (jsTrim raw.data) = true ∧ hasOp (jsTrim raw.data) = true
      · rw [if_pos hc]
        refine ⟨mk_ne_empty (filter_ne_nil_of_any hc.2.1 fun c h => digit_allowed h), Or.inr ?_⟩
        exact all_filter _ _
      · rw [if_neg hc]
        by_cases hb : listBegins errPrefix (jsTrim raw.data) = true
        · rw [if_pos hb]
          exact ⟨mk_ne_empty (ne_nil_of_beginsError hb), Or.inl hb⟩
        · rw [if_neg (by rw [Bool.eq_false_iff.mpr hb]; decide)]
          exact ⟨by decide, Or.inl (by decide)⟩
  · intro s
    simp only [ServiceJS.calculateExpression]
    by_cases h1 : stripDisallowed s.data ≠ s.data
    · rw [if_pos h1]
      exact ⟨by decide, Or.inl (by decide)⟩
    · rw [if_neg h1]
      by_cases h2 : adjOps (stripDisallowed s.data) = true
      · rw [if_pos h2]
        exact ⟨by decide, Or.inl (by decide)⟩
      · rw [if_neg (by rw [Bool.eq_false_iff.mpr h2]; decide)]
        generalize evalJS (stripDisallowed s.data) = o
        match o with
        | .thrown => exact ⟨by decide, Or.inl (by decide)⟩
        | .undef => exact ⟨by decide, Or.inl (by decide)⟩
        | .value (.inf b) => cases b <;> exact ⟨by decide, Or.inl (by decide)⟩
        | .value .nan => exact ⟨by decide, Or.inl (by decide)⟩
        | .value (.num q) =>
          simp only [ServiceJS.formatOutcome]
          by_cases hf : finiteRat q = true
          · rw [if_pos hf]
            exact ⟨mk_ne_empty (decChars_ne_nil (decChars_ratToChars q)),
              Or.inr (decChars_ratToChars q)⟩
          · rw [if_neg (by rw [Bool.eq_false_iff.mpr hf]; decide)]
            exact ⟨by decide, Or.inl (by decide)⟩

/-! ## Parser soundness: rendered expressions parse to their value

The specification-side view of precedence and associativity: an abstract
syntax tree of the conventional grammar (`AExp`), its bottom-up evaluation
(`evalA`), and a minimal-parenthesis rendering into tokens at the three
grammar levels (additive position, multiplicative position, atom position):
left operands stay at their own level (left associativity), right operands
drop one level, and any construct placed below its own level is wrapped in
parentheses.  `parseRenderSound` shows the evaluator computes exactly the
conventional bottom-up value of every such tree. -/

/-- Abstract syntax of arithmetic expressions with the four operators. -/
inductive AExp where
  | num (q : JSRat)
  | add (a b : AExp)
  | sub (a b : AExp)
  | mul (a b : AExp)
  | div (a b : AExp)

/-- Node count. -/
def szA : AExp → Nat
  | .num _ => 1
  | .add a b => szA a + szA b + 1
  | .sub a b => szA a + szA b + 1
  | .mul a b => szA a + szA b + 1
  | .div a b => szA a + szA b + 1

/-- Conventional bottom-up evaluation in the JavaScript number model. -/
def evalA : AExp → JSNum
  | .num q => clampNum q
  | .add a b => jsAdd (evalA a) (evalA b)
  | .sub a b => jsSub (evalA a) (evalA b)
  | .mul a b => jsMul (evalA a) (evalA b)
  | .div a b => jsDiv (evalA a) (evalA b)

mutual

/-- Rendering at additive (expression) level. -/
def renderE : AExp → List Tok
  | .num q => [Tok.num q]
  | .add a b => renderE a ++ Tok.add :: renderT b
  | .sub a b => renderE a ++ Tok.sub :: renderT b
  | .mul a b => renderT a ++ Tok.mul :: renderA b
  | .div a b => renderT a ++ Tok.div :: renderA b

/-- Rendering at multiplicative (term) level: additive nodes get
parenthesized. -/
def renderT : AExp → List Tok
  | .num q => [Tok.num q]
  | .add a b => Tok.lp :: (renderE a ++ Tok.add :: renderT b) ++ [Tok.rp]
  | .sub a b => Tok.lp :: (renderE a ++ Tok.sub :: renderT b) ++ [Tok.rp]
  | .mul a b => renderT a ++ Tok.mul :: renderA b
  | .div a b => renderT a ++ Tok.div :: renderA b

/-- Rendering at atom level: every compound node gets parenthesized. -/
def renderA : AExp → List Tok
  | .num q => [Tok.num q]
  | .add a b => Tok.lp :: (renderE a ++ Tok.add :: renderT b) ++ [Tok.rp]
  | .sub a b => Tok.lp :: (renderE a ++ Tok.sub :: renderT b) ++ [Tok.rp]
  | .mul a b => Tok.lp :: (renderT a ++ Tok.mul :: renderA b) ++ [Tok.rp]
  | .div a b => Tok.lp :: (renderT a ++ Tok.div :: renderA b) ++ [Tok.rp]

end

/-- A continuation on which the additive loop halts. -/
def expStop : List Tok → Bool
  | Tok.add :: _ => false
  | Tok.sub :: _ => false
  | _ => true

/-- A continuation on which the multiplicative loop halts. -/
def termStop : List Tok → Bool
  | Tok.mul :: _ => false
  | Tok.div :: _ => false
  | _ => true

/-- The additive loop returns its accumulator on a halting continuation. -/
theorem parseExprLoop_exit {rest : List Tok} (f : Nat) (acc : JSNum)
    (h : expStop rest = true) :
    parseExprLoop (f + 1) acc rest = some (acc, rest) := by
  match rest with
  | [] => rfl
  | Tok.add :: _ => simp [expStop] at h
  | Tok.sub :: _ => simp [expStop] at h
  | Tok.num q :: _ => rfl
  | Tok.mul :: _ => rfl
  | Tok.div :: _ => rfl
  | Tok.lp :: _ => rfl
  | Tok.rp :: _ => rfl

/-- The multiplicative loop returns its accumulator on a halting
continuation. -/
theorem parseTermLoop_exit {rest : List Tok} (f : Nat) (acc : JSNum)
    (h : termStop rest = true) :
    parseTermLoop (f + 1) acc rest = some (acc, rest) := by
  match rest with
  | [] => rfl
  | Tok.mul :: _ => simp [termStop] at h
  | Tok.div :: _ => simp [termStop] at h
  | Tok.num q :: _ => rfl
  | Tok.add :: _ => rfl
  | Tok.sub :: _ => rfl
  | Tok.lp :: _ => rfl
  | Tok.rp :: _ => rfl

/-- Soundness statement at atom position. -/
def AtomOk (e : AExp) : Prop :=
  ∀ (rest : List Tok) (f : Nat), 14 * szA e + 6 ≤ f →
    parseAtom f (renderA e ++ rest) = some (evalA e, rest)

/-- Soundness statement at unary position. -/
def UnaryOk (e : AExp) : Prop :=
  ∀ (rest : List Tok) (f : Nat), 14 * szA e + 7 ≤ f →
    parseUnary f (renderA e ++ rest) = some (evalA e, rest)

/-- Soundness statement at term position, in continuation form: if the
multiplicative loop started on the continuation with the value of `e`
yields `out` at every sufficient fuel, then parsing the rendering of `e`
followed by the continuation yields `out`. -/
def TermOk (e : AExp) : Prop :=
  ∀ (rest : List Tok) (out : JSNum × List Tok) (H f : Nat),
    (∀ h, H ≤ h → parseTermLoop h (evalA e) rest = some out) →
    14 * szA e + H + 8 ≤ f →
    parseTerm f (renderT e ++ rest) = some out

/-- Soundness statement at expression position, in continuation form. -/
def ExprOk (e : AExp) : Prop :=
  ∀ (rest : List Tok) (out : JSNum × List Tok) (H f : Nat),
    termStop rest = true →
    (∀ h, H ≤ h → parseExprLoop h (evalA e) rest = some out) →
    14 * szA e + H + 4 ≤ f →
    parseExpr f (renderE e ++ rest) = some out

/-- Unfolding step: an expression is a term followed by the additive loop. -/
theorem parseExpr_step {ts : List Tok} {v : JSNum} {r : List Tok} {out : JSNum × List Tok}
    (f : Nat) (ht : parseTerm f ts = some (v, r)) (hl : parseExprLoop f v r = some out) :
    parseExpr (f + 1) ts = some out := by
  simp only [parseExpr]
  rw [ht]
  exact hl

/-- Unfolding step: a term is a unary followed by the multiplicative loop. -/
theorem parseTerm_step {ts : List Tok} {v : JSNum} {r : List Tok} {out : JSNum × List Tok}
    (f : Nat) (hu : parseUnary f ts = some (v, r)) (hl : parseTermLoop f v r = some out) :
    parseTerm (f + 1) ts = some out := by
  simp only [parseTerm]
  rw [hu]
  exact hl

/-- Unfolding step of the additive loop on a plus token. -/
theorem parseExprLoop_add {ts : List Tok} {acc v : JSNum} {r : List Tok} {out : JSNum × List Tok}
    (f : Nat) (ht : parseTerm f ts = some (v, r)) (hl : parseExprLoop f (jsAdd acc v) r = some out) :
    parseExprLoop (f + 1) acc (Tok.add :: ts) = some out := by
  simp only [parseExprLoop]
  rw [ht]
  exact hl

/-- Unfolding step of the additive loop on a minus token. -/
theorem parseExprLoop_sub {ts : List Tok} {acc v : JSNum} {r : List Tok} {out : JSNum × List Tok}
    (f : Nat) (ht : parseTerm f ts = some (v, r)) (hl : parseExprLoop f (jsSub acc v) r = some out) :
    parseExprLoop (f + 1) acc (Tok.sub :: ts) = some out := by
  simp only [parseExprLoop]
  rw [ht]
  exact hl

/-- Unfolding step of the multiplicative loop on a times token. -/
theorem parseTermLoop_mul {ts : List Tok} {acc v : JSNum} {r : List Tok} {out : JSNum × List Tok}
    (f : Nat) (hu : parseUnary f ts = some (v, r)) (hl : parseTermLoop f (jsMul acc v) r = some out) :
    parseTermLoop (f + 1) acc (Tok.mul :: ts) = some out := by
  simp only [parseTermLoop]
  rw [hu]
  exact hl

/-- Unfolding step of the multiplicative loop on a divide token. -/
theorem parseTermLoop_div {ts : List Tok} {acc v : JSNum} {r : List Tok} {out : JSNum × List Tok}
    (f : Nat) (hu : parseUnary f ts = some (v, r)) (hl : parseTermLoop f (jsDiv acc v) r = some out) :
    parseTermLoop (f + 1) acc (Tok.div :: ts) = some out := by
  simp only [parseTermLoop]
  rw [hu]
  exact hl

/-- A parenthesized expression parses as an atom. -/
theorem paren_atom {X rest : List Tok} {v : JSNum} (f G : Nat)
    (hsub : ∀ g, G ≤ g → parseExpr g (X ++ Tok.rp :: rest) = some (v, Tok.rp :: rest))
    (hf : G + 1 ≤ f) :
    parseAtom f (Tok.lp :: (X ++ Tok.rp :: rest)) = some (v, rest) := by
  obtain ⟨g, rfl⟩ : ∃ g, f = g + 1 := ⟨f - 1, by omega⟩
  simp only [parseAtom]
  rw [hsub g (by omega)]

/-- A parenthesized expression parses as a unary. -/
theorem paren_unary {X rest : List Tok} {v : JSNum} (f G : Nat)
    (hsub : ∀ g, G ≤ g → parseExpr g (X ++ Tok.rp :: rest) = some (v, Tok.rp :: rest))
    (hf : G + 2 ≤ f) :
    parseUnary f (Tok.lp :: (X ++ Tok.rp :: rest)) = some (v, rest) := by
  obtain ⟨g, rfl⟩ : ∃ g, f = g + 1 := ⟨f - 1, by omega⟩
  show parseAtom g (Tok.lp :: (X ++ Tok.rp :: rest)) = some (v, rest)
  exact paren_atom g G hsub (by omega)

/-- Soundness of the parser-evaluator on rendered expressions, at all four
grammar positions simultaneously, by structural induction. -/
theorem parseRenderSound (e : AExp) : AtomOk e ∧ UnaryOk e ∧ TermOk e ∧ ExprOk e := by
  induction e with
  | num q =>
    have hA : AtomOk (AExp.num q) := by
      intro rest f hf
      obtain ⟨g, rfl⟩ : ∃ g, f = g + 1 := ⟨f - 1, by omega⟩
      rfl
    have hU : UnaryOk (AExp.num q) := by
      intro rest f hf
      obtain ⟨g, rfl⟩ : ∃ g, f = g + 1 := ⟨f - 1, by omega⟩
      obtain ⟨g1, rfl⟩ : ∃ g1, g = g1 + 1 := ⟨g - 1, by omega⟩
      rfl
    have hT : TermOk (AExp.num q) := by
      intro rest out H f hloop hf
      obtain ⟨g, rfl⟩ : ∃ g, f = g + 1 := ⟨f - 1, by omega⟩
      refine parseTerm_step g (v := clampNum q) (r := rest) ?_ ?_
      · obtain ⟨g1, rfl⟩ : ∃ g1, g = g1 + 1 := ⟨g - 1, by omega⟩
        obtain ⟨g2, rfl⟩ : ∃ g2, g1 = g2 + 1 := ⟨g1 - 1, by omega⟩
        rfl
      · exact hloop g (by omega)
    have hE : ExprOk (AExp.num q) := by
      intro rest out H f hstop hloop hf
      obtain ⟨g, rfl⟩ : ∃ g, f = g + 1 := ⟨f - 1, by omega⟩
      refine parseExpr_step g (v := clampNum q) (r := rest) ?_ ?_
      · obtain ⟨g1, rfl⟩ : ∃ g1, g = g1 + 1 := ⟨g - 1, by omega⟩
        refine parseTerm_step g1 (v := clampNum q) (r := rest) ?_ ?_
        · obtain ⟨g2, rfl⟩ : ∃ g2, g1 = g2 + 1 := ⟨g1 - 1, by omega⟩
          obtain ⟨g3, rfl⟩ : ∃ g3, g2 = g3 + 1 := ⟨g2 - 1, by omega⟩
          rfl
        · obtain ⟨g2, rfl⟩ : ∃ g2, g1 = g2 + 1 := ⟨g1 - 1, by omega⟩
          exact parseTermLoop_exit g2 _ hstop
      · exact hloop g (by omega)
    exact ⟨hA, hU, hT, hE⟩
  | add a b iha ihb =>
    obtain ⟨ihaA, ihaU, ihaT, ihaE⟩ := iha
    obtain ⟨ihbA, ihbU, ihbT, ihbE⟩ := ihb
    have hE : ExprOk (AExp.add a b) := by
      intro rest out H f hstop hloop hf
      simp only [szA] at hf
      have hsh : renderE (AExp.add a b) ++ rest = renderE a ++ (Tok.add :: (renderT b ++ rest)) := by
        simp [renderE]
      rw [hsh]
      refine ihaE (Tok.add :: (renderT b ++ rest)) out (14 * szA b + H + 10) f rfl ?_ (by omega)
      intro h hh
      obtain ⟨h1, rfl⟩ : ∃ h1, h = h1 + 1 := ⟨h - 1, by omega⟩
      refine parseExprLoop_add h1 (v := evalA b) (r := rest) ?_ (hloop h1 (by omega))
      refine ihbT rest (evalA b, rest) 1 h1 ?_ (by omega)
      intro g hg
      obtain ⟨g1, rfl⟩ : ∃ g1, g = g1 + 1 := ⟨g - 1, by omega⟩
      exact parseTermLoop_exit g1 _ hstop
    have hT : TermOk (AExp.add a b) := by
      intro rest out H f hloop hf
      simp only [szA] at hf
      obtain ⟨g, rfl⟩ : ∃ g, f = g + 1 := ⟨f - 1, by omega⟩
      refine parseTerm_step g (v := evalA (AExp.add a b)) (r := rest) ?_ (hloop g (by omega))
      have hsh : renderT (AExp.add a b) ++ rest
          = Tok.lp :: (renderE (AExp.add a b) ++ Tok.rp :: rest) := by
        simp [renderT, renderE]
      rw [hsh]
      refine paren_unary g (14 * szA (AExp.add a b) + 5) ?_ (by simp only [szA]; omega)
      intro g2 hg2
      refine hE (Tok.rp :: rest) (evalA (AExp.add a b), Tok.rp :: rest) 1 g2 rfl ?_ (by omega)
      intro h hh
      obtain ⟨h1, rfl⟩ : ∃ h1, h = h1 + 1 := ⟨h - 1, by omega⟩
      exact parseExprLoop_exit h1 _ rfl
    have hA : AtomOk (AExp.add a b) := by
      intro rest f hf
      simp only [szA] at hf
      have hsh : renderA (AExp.add a b) ++ rest
          = Tok.lp :: (renderE (AExp.add a b) ++ Tok.rp :: rest) := by
        simp [renderA, renderE]
      rw [hsh]
      refine paren_atom f (14 * szA (AExp.add a b) + 5) ?_ (by simp only [szA]; omega)
      intro g2 hg2
      refine hE (Tok.rp :: rest) (evalA (AExp.add a b), Tok.rp :: rest) 1 g2 rfl ?_ (by omega)
      intro h hh
      obtain ⟨h1, rfl⟩ : ∃ h1, h = h1 + 1 := ⟨h - 1, by omega⟩
      exact parseExprLoop_exit h1 _ rfl
    have hU : UnaryOk (AExp.add a b) := by
      intro rest f hf
      simp only [szA] at hf
      have hsh : renderA (AExp.add a b) ++ rest
          = Tok.lp :: (renderE (AExp.add a b) ++ Tok.rp :: rest) := by
        simp [renderA, renderE]
      rw [hsh]
      refine paren_unary f (14 * szA (AExp.add a b) + 5) ?_ (by simp only [szA]; omega)
      intro g2 hg2
      refine hE (Tok.rp :: rest) (evalA (AExp.add a b), Tok.rp :: rest) 1 g2 rfl ?_ (by omega)
      intro h hh
      obtain ⟨h1, rfl⟩ : ∃ h1, h = h1 + 1 := ⟨h - 1, by omega⟩
      exact parseExprLoop_exit h1 _ rfl
    exact ⟨hA, hU, hT, hE⟩
  | sub a b iha ihb =>
    obtain ⟨ihaA, ihaU, ihaT, ihaE⟩ := iha
    obtain ⟨ihbA, ihbU, ihbT, ihbE⟩ := ihb
    have hE : ExprOk (AExp.sub a b) := by
      intro rest out H f hstop hloop hf
      simp only [szA] at hf
      have hsh : renderE (AExp.sub a b) ++ rest = renderE a ++ (Tok.sub :: (renderT b ++ rest)) := by
        simp [renderE]
      rw [hsh]
      refine ihaE (Tok.sub :: (renderT b ++ rest)) out (14 * szA b + H + 10) f rfl ?_ (by omega)
      intro h hh
      obtain ⟨h1, rfl⟩ : ∃ h1, h = h1 + 1 := ⟨h - 1, by omega⟩
      refine parseExprLoop_sub h1 (v := evalA b) (r := rest) ?_ (hloop h1 (by omega))
      refine ihbT rest (evalA b, rest) 1 h1 ?_ (by omega)
      intro g hg
      obtain ⟨g1, rfl⟩ : ∃ g1, g = g1 + 1 := ⟨g - 1, by omega⟩
      exact parseTermLoop_exit g1 _ hstop
    have hT : TermOk (AExp.sub a b) := by
      intro rest out H f hloop hf
      simp only [szA] at hf
      obtain ⟨g, rfl⟩ : ∃ g, f = g + 1 := ⟨f - 1, by omega⟩
      refine parseTerm_step g (v := evalA (AExp.sub a b)) (r := rest) ?_ (hloop g (by omega))
      have hsh : renderT (AExp.sub a b) ++ rest
          = Tok.lp :: (renderE (AExp.sub a b) ++ Tok.rp :: rest) := by
        simp [renderT, renderE]
      rw [hsh]
      refine paren_unary g (14 * szA (AExp.sub a b) + 5) ?_ (by simp only [szA]; omega)
      intro g2 hg2
      refine hE (Tok.rp :: rest) (evalA (AExp.sub a b), Tok.rp :: rest) 1 g2 rfl ?_ (by omega)
      intro h hh
      obtain ⟨h1, rfl⟩ : ∃ h1, h = h1 + 1 := ⟨h - 1, by omega⟩
      exact parseExprLoop_exit h1 _ rfl
    have hA : AtomOk (AExp.sub a b) := by
      intro rest f hf
      simp only [szA] at hf
      have hsh : renderA (AExp.sub a b) ++ rest
          = Tok.lp :: (renderE (AExp.sub a b) ++ Tok.rp :: rest) := by
        simp [renderA, renderE]
      rw [hsh]
      refine paren_atom f (14 * szA (AExp.sub a b) + 5) ?_ (by simp only [szA]; omega)
      intro g2 hg2
      refine hE (Tok.rp :: rest) (evalA (AExp.sub a b), Tok.rp :: rest) 1 g2 rfl ?_ (by omega)
      intro h hh
      obtain ⟨h1, rfl⟩ : ∃ h1, h = h1 + 1 := ⟨h - 1, by omega⟩
      exact parseExprLoop_exit h1 _ rfl
    have hU : UnaryOk (AExp.sub a b) := by
      intro rest f hf
      simp only [szA] at hf
      have hsh : renderA (AExp.sub a b) ++ rest
          = Tok.lp :: (renderE (AExp.sub a b) ++ Tok.rp :: rest) := by
        simp [renderA, renderE]
      rw [hsh]
      refine paren_unary f (14 * szA (AExp.sub a b) + 5) ?_ (by simp only [szA]; omega)
      intro g2 hg2
      refine hE (Tok.rp :: rest) (evalA (AExp.sub a b), Tok.rp :: rest) 1 g2 rfl ?_ (by omega)
      intro h hh
      obtain ⟨h1, rfl⟩ : ∃ h1, h = h1 + 1 := ⟨h - 1, by omega⟩
      exact parseExprLoop_exit h1 _ rfl
    exact ⟨hA, hU, hT, hE⟩
  | mul a b iha ihb =>
    obtain ⟨ihaA, ihaU, ihaT, ihaE⟩ := iha
    obtain ⟨ihbA, ihbU, ihbT, ihbE⟩ := ihb
    have hT : TermOk (AExp.mul a b) := by
      intro rest out H f hloop hf
      simp only [szA] at hf
      have hsh : renderT (AExp.mul a b) ++ rest = renderT a ++ (Tok.mul :: (renderA b ++ rest)) := by
        simp [renderT]
      rw [hsh]
      refine ihaT (Tok.mul :: (renderA b ++ rest)) out (14 * szA b + H + 9) f ?_ (by omega)
      intro h hh
      obtain ⟨h1, rfl⟩ : ∃ h1, h = h1 + 1 := ⟨h - 1, by omega⟩
      exact parseTermLoop_mul h1 (ihbU rest h1 (by omega)) (hloop h1 (by omega))
    have hE : ExprOk (AExp.mul a b) := by
      intro rest out H f hstop hloop hf
      simp only [szA] at hf
      obtain ⟨g, rfl⟩ : ∃ g, f = g + 1 := ⟨f - 1, by omega⟩
      refine parseExpr_step g (v := evalA (AExp.mul a b)) (r := rest) ?_ (hloop g (by omega))
      have hsh : renderE (AExp.mul a b) ++ rest = renderT a ++ (Tok.mul :: (renderA b ++ rest)) := by
        simp [renderE]
      rw [hsh]
      refine ihaT (Tok.mul :: (renderA b ++ rest)) (evalA (AExp.mul a b), rest) (14 * szA b + 9) g ?_ (by omega)
      intro h hh
      obtain ⟨h1, rfl⟩ : ∃ h1, h = h1 + 1 := ⟨h - 1, by omega⟩
      refine parseTermLoop_mul h1 (ihbU rest h1 (by omega)) ?_
      obtain ⟨h2, rfl⟩ : ∃ h2, h1 = h2 + 1 := ⟨h1 - 1, by omega⟩
      exact parseTermLoop_exit h2 _ hstop
    have hA : AtomOk (AExp.mul a b) := by
      intro rest f hf
      simp only [szA] at hf
      have hsh : renderA (AExp.mul a b) ++ rest
          = Tok.lp :: (renderE (AExp.mul a b) ++ Tok.rp :: rest) := by
        simp [renderA, renderE]
      rw [hsh]
      refine paren_atom f (14 * szA (AExp.mul a b) + 5) ?_ (by simp only [szA]; omega)
      intro g2 hg2
      refine hE (Tok.rp :: rest) (evalA (AExp.mul a b), Tok.rp :: rest) 1 g2 rfl ?_ (by omega)
      intro h hh
      obtain ⟨h1, rfl⟩ : ∃ h1, h = h1 + 1 := ⟨h - 1, by omega⟩
      exact parseExprLoop_exit h1 _ rfl
    have hU : UnaryOk (AExp.mul a b) := by
      intro rest f hf
      simp only [szA] at hf
      have hsh : renderA (AExp.mul a b) ++ rest
          = Tok.lp :: (renderE (AExp.mul a b) ++ Tok.rp :: rest) := by
        simp [renderA, renderE]
      rw [hsh]
      refine paren_unary f (14 * szA (AExp.mul a b) + 5) ?_ (by simp only [szA]; omega)
      intro g2 hg2
      refine hE (Tok.rp :: rest) (evalA (AExp.mul a b), Tok.rp :: rest) 1 g2 rfl ?_ (by omega)
      intro h hh
      obtain ⟨h1, rfl⟩ : ∃ h1, h = h1 + 1 := ⟨h - 1, by omega⟩
      exact parseExprLoop_exit h1 _ rfl
    exact ⟨hA, hU, hT, hE⟩
  | div a b iha ihb =>
    obtain ⟨ihaA, ihaU, ihaT, ihaE⟩ := iha
    obtain ⟨ihbA, ihbU, ihbT, ihbE⟩ := ihb
    have hT : TermOk (AExp.div a b) := by
      intro rest out H f hloop hf
      simp only [szA] at hf
      have hsh : renderT (AExp.div a b) ++ rest = renderT a ++ (Tok.div :: (renderA b ++ rest)) := by
        simp [renderT]
      rw [hsh]
      refine ihaT (Tok.div :: (renderA b ++ rest)) out (14 * szA b + H + 9) f ?_ (by omega)
      intro h hh
      obtain ⟨h1, rfl⟩ : ∃ h1, h = h1 + 1 := ⟨h - 1, by omega⟩
      exact parseTermLoop_div h1 (ihbU rest h1 (by omega)) (hloop h1 (by omega))
    have hE : ExprOk (AExp.div a b) := by
      intro rest out H f hstop hloop hf
      simp only [szA] at hf
      obtain ⟨g, rfl⟩ : ∃ g, f = g + 1 := ⟨f - 1, by omega⟩
      refine parseExpr_step g (v := evalA (AExp.div a b)) (r := rest) ?_ (hloop g (by omega))
      have hsh : renderE (AExp.div a b) ++ rest = renderT a ++ (Tok.div :: (renderA b ++ rest)) := by
        simp [renderE]
      rw [hsh]
      refine ihaT (Tok.div :: (renderA b ++ rest)) (evalA (AExp.div a b), rest) (14 * szA b + 9) g ?_ (by omega)
      intro h hh
      obtain ⟨h1, rfl⟩ : ∃ h1, h = h1 + 1 := ⟨h - 1, by omega⟩
      refine parseTermLoop_div h1 (ihbU rest h1 (by omega)) ?_
      obtain ⟨h2, rfl⟩ : ∃ h2, h1 = h2 + 1 := ⟨h1 - 1, by omega⟩
      exact parseTermLoop_exit h2 _ hstop
    have hA : AtomOk (AExp.div a b) := by
      intro rest f hf
      simp only [szA] at hf
      have hsh : renderA (AExp.div a b) ++ rest
          = Tok.lp :: (renderE (AExp.div a b) ++ Tok.rp :: rest) := by
        simp [renderA, renderE]
      rw [hsh]
      refine paren_atom f (14 * szA (AExp.div a b) + 5) ?_ (by simp only [szA]; omega)
      intro g2 hg2
      refine hE (Tok.rp :: rest) (evalA (AExp.div a b), Tok.rp :: rest) 1 g2 rfl ?_ (by omega)
      intro h hh
      obtain ⟨h1, rfl⟩ : ∃ h1, h = h1 + 1 := ⟨h - 1, by omega⟩
      exact parseExprLoop_exit h1 _ rfl
    have hU : UnaryOk (AExp.div a b) := by
      intro rest f hf
      simp only [szA] at hf
      have hsh : renderA (AExp.div a b) ++ rest
          = Tok.lp :: (renderE (AExp.div a b) ++ Tok.rp :: rest) := by
        simp [renderA, renderE]
      rw [hsh]
      refine paren_unary f (14 * szA (AExp.div a b) + 5) ?_ (by simp only [szA]; omega)
      intro g2 hg2
      refine hE (Tok.rp :: rest) (evalA (AExp.div a b), Tok.rp :: rest) 1 g2 rfl ?_ (by omega)
      intro h hh
      obtain ⟨h1, rfl⟩ : ∃ h1, h = h1 + 1 := ⟨h - 1, by omega⟩
      exact parseExprLoop_exit h1 _ rfl
    exact ⟨hA, hU, hT, hE⟩

/-- Renderings carry at least one token per node. -/
theorem szA_le_len (e : AExp) :
    szA e ≤ (renderA e).length ∧ szA e ≤ (renderT e).length ∧ szA e ≤ (renderE e).length := by
  induction e <;> simp_all [renderA, renderT, renderE, szA, List.length_append] <;> omega

/-- C5: the local evaluator respects conventional precedence and
left-to-right associativity: for every abstract arithmetic expression, the
dynamic evaluator run on its minimal-parenthesis rendering computes exactly
its conventional bottom-up value; in particular 2+3*4 gives 14, (2+3)*4
gives 20, the running example 34+54+67+87 gives 242, and the equal-
precedence chains 10-3-4 and 8/4/2 associate to the left (3 and 1). -/
theorem c5_precedence :
    (∀ e : AExp, parseExpr (parseFuel (renderE e)) (renderE e) = some (evalA e, []))
    ∧ ServiceJS.calculateExpression "2+3*4" = "14"
    ∧ ServiceJS.calculateExpression "(2+3)*4" = "20"
    ∧ ServiceJS.calculateExpression "34+54+67+87" = "242"
    ∧ ServiceJS.calculateExpression "10-3-4" = "3"
    ∧ ServiceJS.calculateExpression "8/4/2" = "1" := by
  refine ⟨?_, by decide, by decide, by decide, by decide, by decide⟩
  intro e
  have hlen := (szA_le_len e).2.2
  have h := (parseRenderSound e).2.2.2 [] (evalA e, []) 1 (parseFuel (renderE e)) rfl
    (fun h hh => by
      obtain ⟨h1, rfl⟩ : ∃ h1, h = h1 + 1 := ⟨h - 1, by omega⟩
      exact parseExprLoop_exit h1 _ rfl)
    (by simp only [parseFuel]; omega)
  rw [List.append_nil] at h
  exact h
